import Mathlib

/-!
Verification of the searchEmway lookup core (`app.js`): CSV tokenizer,
header-driven record mapper, keyed store with a lowercased-article index,
cache-first dataset acquisition, and the multi-variant lookup engine.
Strings are modelled as Lean `String`s; the JavaScript helpers `trim`,
`toLowerCase`, `toUpperCase` and `String.prototype.includes` are modelled
over the underlying character lists.
-/

namespace SearchEmway

/-- Model of JavaScript `String.prototype.trim` on the left end:
drop leading whitespace characters. -/
def trimLeftChars (l : List Char) : List Char :=
  l.dropWhile Char.isWhitespace

/-- Model of JavaScript `String.prototype.trim` on the right end:
drop trailing whitespace characters. -/
def trimRightChars (l : List Char) : List Char :=
  (l.reverse.dropWhile Char.isWhitespace).reverse

/-- Model of JavaScript `value.trim()`. -/
def jsTrim (s : String) : String :=
  ⟨trimRightChars (trimLeftChars s.data)⟩

/-- Model of JavaScript `value.toLowerCase()`: lowercase each character. -/
def jsToLower (s : String) : String :=
  ⟨s.data.map Char.toLower⟩

/-- Model of JavaScript `value.toUpperCase()`: uppercase each character. -/
def jsToUpper (s : String) : String :=
  ⟨s.data.map Char.toUpper⟩

/-- Substring containment on character lists: some tail of the haystack
starts with the needle. -/
def hasSubstring : List Char → List Char → Bool
  | [], needle => needle.isEmpty
  | c :: t, needle => needle.isPrefixOf (c :: t) || hasSubstring t needle

/-- Model of JavaScript `s.includes(sub)`: substring containment. -/
def jsIncludes (s sub : String) : Bool :=
  hasSubstring s.data sub.data

/-- Row emission in `parseCSV`: the pending field is appended and the row
pushed only when the row is non-degenerate
(`if (cur !== '' || row.length > 0) { row.push(cur); rows.push(row); }`). -/
def emitRow (cur : List Char) (row : List (List Char)) (rows : List (List (List Char))) :
    List (List (List Char)) :=
  if cur ≠ [] ∨ row ≠ [] then rows ++ [row ++ [cur]] else rows

/-- The scanning loop of `parseCSV` from `app.js`: one left-to-right pass
with an `inQuotes` flag (first argument), the accumulated field `cur`, the
accumulated `row` and the emitted `rows`.  A `""` inside quotes decodes to a
literal quote consuming two characters; a `"` toggles quote mode; `,` ends a
field outside quotes; `\n`, `\r` and the pair `\r\n` end a row outside
quotes; anything else is appended to the field buffer verbatim.  At end of
input a pending field/row is flushed regardless of quote state. -/
def parseCSVAux : Bool → List Char → List Char → List (List Char) →
    List (List (List Char)) → List (List (List Char))
  | _, [], cur, row, rows => emitRow cur row rows
  | true, '"' :: '"' :: rest, cur, row, rows =>
      parseCSVAux true rest (cur ++ ['"']) row rows
  | true, '"' :: rest, cur, row, rows =>
      parseCSVAux false rest cur row rows
  | false, '"' :: rest, cur, row, rows =>
      parseCSVAux true rest cur row rows
  | false, ',' :: rest, cur, row, rows =>
      parseCSVAux false rest [] (row ++ [cur]) rows
  | false, '\r' :: '\n' :: rest, cur, row, rows =>
      parseCSVAux false rest [] [] (emitRow cur row rows)
  | false, '\n' :: rest, cur, row, rows =>
      parseCSVAux false rest [] [] (emitRow cur row rows)
  | false, '\r' :: rest, cur, row, rows =>
      parseCSVAux false rest [] [] (emitRow cur row rows)
  | inQ, c :: rest, cur, row, rows =>
      parseCSVAux inQ rest (cur ++ [c]) row rows

/-- `parseCSV` from `app.js`: tokenize raw text into rows of string fields. -/
def parseCSV (text : String) : List (List String) :=
  (parseCSVAux false text.data [] [] []).map (fun row => row.map String.mk)

/-- Quote-doubling used when encoding a value as a quoted CSV field:
each `"` in the value becomes `""`. -/
def escQ (l : List Char) : List Char :=
  l.flatMap (fun c => if c = '"' then ['"', '"'] else [c])

/-- Encode a field value as a single quoted CSV field: wrap in double
quotes, doubling each embedded double quote (the encoding named by the
round-trip property in the specification). -/
def encodeField (s : String) : String :=
  "\"" ++ String.mk (escQ s.data) ++ "\""

example : parseCSV "a,b\nc,d" = [["a", "b"], ["c", "d"]] := by decide
example : parseCSV "\"a,\"\"x\"\"\",b" = [["a,\"x\"", "b"]] := by decide
example : parseCSV (encodeField "") = [] := by decide
example : parseCSV "a\r\n\r\nb" = [["a"], ["b"]] := by decide

/-- A mapped record as built by `csvToRecords` in `app.js`. -/
structure Record where
  code : String
  article : String
  description : String
  price : String
  department : String
deriving DecidableEq, Repr

/-- The header-to-column-index map built by the `header.forEach` loop of
`csvToRecords`: each logical column holds the index of the last header cell
whose normalized text matched its keyword set, if any. -/
structure HeaderMap where
  code : Option Nat
  article : Option Nat
  description : Option Nat
  price : Option Nat
  department : Option Nat
deriving DecidableEq, Repr

/-- The empty header map (no column mapped). -/
def HeaderMap.empty : HeaderMap :=
  ⟨none, none, none, none, none⟩

/-- One iteration of the `header.forEach((h, i) => ...)` loop of
`csvToRecords`: `h` is the already trimmed and lowercased header cell and
`i` its index; each keyword test that succeeds overwrites the
corresponding column index. -/
def headerStep (m : HeaderMap) (i : Nat) (h : String) : HeaderMap :=
  let m1 := if jsIncludes h "code" || jsIncludes h "kode" then
    { m with code := some i } else m
  let m2 := if jsIncludes h "article" || jsIncludes h "artikel" then
    { m1 with article := some i } else m1
  let m3 := if jsIncludes h "desc" || jsIncludes h "description" || jsIncludes h "deskripsi" then
    { m2 with description := some i } else m2
  let m4 := if jsIncludes h "price" || jsIncludes h "harga" then
    { m3 with price := some i } else m3
  if jsIncludes h "department" || jsIncludes h "bagian" then
    { m4 with department := some i } else m4

/-- The `forEach` loop over normalized header cells, with explicit index. -/
def applyHeader : HeaderMap → Nat → List String → HeaderMap
  | m, _, [] => m
  | m, i, h :: rest => applyHeader (headerStep m i h) (i + 1) rest

/-- Build the column map from a raw header row, normalizing each cell with
`(h || '').trim().toLowerCase()` first, as `csvToRecords` does. -/
def headerMap (header : List String) : HeaderMap :=
  applyHeader HeaderMap.empty 0 (header.map (fun h => jsToLower (jsTrim h)))

/-- Model of `r[map.col] || ''`: reading a row cell through an optionally
mapped column index, where an unmapped column or an out-of-range index
yields the empty string. -/
def getCol (r : List String) (idx : Option Nat) : String :=
  match idx with
  | some i => r.getD i ""
  | none => ""

/-- `csvToRecords` from `app.js`: row 0 is the header; every later
non-empty row whose trimmed code cell is non-empty becomes a `Record`,
all fields trimmed, absent cells coerced to the empty string. -/
def csvToRecords (text : String) : List Record :=
  match parseCSV text with
  | [] => []
  | header :: rest =>
    let m := headerMap header
    rest.filterMap (fun r =>
      if r.isEmpty then none
      else
        let code := jsTrim (getCol r m.code)
        if code = "" then none
        else some { code := code
                    article := jsTrim (getCol r m.article)
                    description := jsTrim (getCol r m.description)
                    price := jsTrim (getCol r m.price)
                    department := jsTrim (getCol r m.department) })

example : csvToRecords "Kode,Artikel,Deskripsi,Harga,Bagian\nA1,Widget,,100," =
    [{ code := "A1", article := "Widget", description := "", price := "100",
       department := "" }] := by decide
example : csvToRecords "Code,Dept\nA1,Toys" =
    [{ code := "A1", article := "", description := "", price := "",
       department := "" }] := by decide

/-- A record as stored in the `dataMasterEmway` object store: the mapped
fields plus the derived `article_lower` index key. -/
structure StoredRecord where
  code : String
  article : String
  description : String
  price : String
  department : String
  article_lower : String
deriving DecidableEq, Repr

/-- The IndexedDB object store, keyed by `code`. -/
abbrev Store := List StoredRecord

/-- The object `st.put({...})` writes in `importToIndexedDB`: the record's
fields with `article_lower` computed fresh as `article.toLowerCase()`. -/
def toStored (r : Record) : StoredRecord :=
  { code := r.code, article := r.article, description := r.description,
    price := r.price, department := r.department,
    article_lower := jsToLower r.article }

/-- One `st.put` against the keyed store: insert-or-overwrite by `code`. -/
def putRecord (st : Store) (r : StoredRecord) : Store :=
  if st.any (fun x => x.code == r.code) then
    st.map (fun x => if x.code == r.code then r else x)
  else st ++ [r]

/-- `importToIndexedDB` from `app.js`: put every record, in list order,
into the keyed store within one transaction (bulk upsert). -/
def importToIndexedDB (st : Store) (records : List Record) : Store :=
  records.foldl (fun s r => putRecord s (toStored r)) st

/-- `lookupByCode` from `app.js`: exact, case-sensitive primary-key get. -/
def lookupByCode (st : Store) (code : String) : Option StoredRecord :=
  st.find? (fun x => x.code == code)

/-- `lookupByArticle` from `app.js`: full scan of the `article_idx` index;
a cursor entry is kept iff its key is truthy (non-empty `article_lower`)
and contains `term.toLowerCase()` as a substring. -/
def lookupByArticle (st : Store) (term : String) : List StoredRecord :=
  let lower := jsToLower term
  st.filter (fun r => (r.article_lower != "") && jsIncludes r.article_lower lower)

/-- The `emway-cache` response cache: at most one entry, keyed by the
logical path `./master.csv`, holding the last successfully fetched text. -/
structure CacheState where
  entry : Option String
deriving DecidableEq, Repr

/-- Provenance of a fetched dataset, the `source` field of the object
returned by `fetchMasterCsv`. -/
inductive FetchSource where
  | cache
  | network
deriving DecidableEq, Repr

/-- `fetchMasterCsv` from `app.js`.  `net` models the outcome of
`fetch('./master.csv', {cache:'no-store'})`: `some txt` for a successful
response body, `none` when the fetch throws or the status is not ok.
`cacheWriteOk` models whether the best-effort `cache.put` succeeds (its
failure is swallowed).  Returns the result (`Except` models the thrown
`HTTP` error), the cache state after the call, and whether the network
was consulted. -/
def fetchMasterCsv (cs : CacheState) (net : Option String) (cacheWriteOk : Bool) :
    Except String (FetchSource × String) × CacheState × Bool :=
  match cs.entry with
  | some txt => (Except.ok (FetchSource.cache, txt), cs, false)
  | none =>
    match net with
    | none => (Except.error "HTTP error", cs, true)
    | some txt =>
      (Except.ok (FetchSource.network, txt),
       { entry := if cacheWriteOk then some txt else cs.entry }, true)

/-- Result of `doLookup`: the populated record or the not-found outcome. -/
inductive LookupResult where
  | found (r : StoredRecord)
  | notFound
deriving DecidableEq, Repr

/-- Busy-flag transitions performed by a lookup call: `enterInFlight` is
`lookupBusy = true` at the top of `doLookup`; `backToIdle` is the
`lookupBusy = false` in `finishLookup`. -/
inductive EngineEv where
  | enterInFlight
  | backToIdle
deriving DecidableEq, Repr, BEq

/-- The exact-phase loop of `doLookup` over the three case variants:
`try { found = await lookupByCode(t) } catch { }` followed by
`if (found) break`.  `err t` models a store read error on key `t`, which
the `catch` swallows, leaving `found` unchanged. -/
def exactAttempts (st : Store) (err : String → Bool) :
    List String → Option StoredRecord → Option StoredRecord
  | [], found => found
  | t :: rest, found =>
    let found2 := if err t then found else lookupByCode st t
    if found2.isSome then found2 else exactAttempts st err rest found2

/-- `doLookup` from `app.js` (UI effects elided): sets the busy flag, tries
the three exact-key case variants `[value, value.toUpperCase(),
value.toLowerCase()]`, falls back to the article-substring scan, and calls
`finishLookup` on every return path.  Returns the result together with the
busy-flag transitions performed. -/
def doLookup (st : Store) (err : String → Bool) (value : String) :
    LookupResult × List EngineEv :=
  let found := exactAttempts st err [value, jsToUpper value, jsToLower value] none
  match found with
  | some r => (LookupResult.found r, [EngineEv.enterInFlight, EngineEv.backToIdle])
  | none =>
    match lookupByArticle st value with
    | r :: _ => (LookupResult.found r, [EngineEv.enterInFlight, EngineEv.backToIdle])
    | [] => (LookupResult.notFound, [EngineEv.enterInFlight, EngineEv.backToIdle])

/-- Outcome of one Enter keypress as observed by the caller. -/
inductive LookupOutcome where
  | resolved (r : StoredRecord)
  | notFound
  | rejectedBusy
  | emptyInput
deriving DecidableEq, Repr

/-- Replay busy-flag transitions over the `lookupBusy` flag. -/
def applyEvents (busy : Bool) (evs : List EngineEv) : Bool :=
  evs.foldl (fun _ e => match e with
    | EngineEv.enterInFlight => true
    | EngineEv.backToIdle => false) busy

/-- The `inputCode` Enter-key handler from `app.js`: a call while
`lookupBusy` is rejected outright; an input whose trim is empty is
rejected with a validation alert without touching the store; otherwise
`doLookup` runs on the trimmed value.  Returns the outcome, the final
busy flag, and the busy-flag transitions performed. -/
def handleEnter (busy : Bool) (st : Store) (err : String → Bool) (raw : String) :
    LookupOutcome × Bool × List EngineEv :=
  if busy then (LookupOutcome.rejectedBusy, busy, [])
  else
    let val := jsTrim raw
    if val = "" then (LookupOutcome.emptyInput, busy, [])
    else
      let res := doLookup st err val
      let out := match res.1 with
        | LookupResult.found r => LookupOutcome.resolved r
        | LookupResult.notFound => LookupOutcome.notFound
      (out, applyEvents busy res.2, res.2)

/-! ### Lookup engine lemmas -/

/-- The exact-phase loop is the first-hit search over the attempt list,
an attempt with a store error contributing no result. -/
theorem exactAttempts_eq_findSome (st : Store) (err : String → Bool) (ts : List String) :
    exactAttempts st err ts none =
      ts.findSome? (fun t => if err t then none else lookupByCode st t) := by
  induction ts with
  | nil => rfl
  | cons t rest ih =>
    cases h : (if err t then none else lookupByCode st t) with
    | none => simp [exactAttempts, List.findSome?_cons, h, ih]
    | some r => simp [exactAttempts, List.findSome?_cons, h]

/-- C7: whenever a cached copy of the dataset exists, `fetchMasterCsv`
returns it with provenance `cache`, leaves the cache untouched and never
consults the network; and once a network fetch succeeds and its best-effort
cache write lands, the cache is populated and every subsequent call answers
from it with provenance `cache` and no network use. -/
theorem c7_cache_authoritative (cs : CacheState) (txt : String)
    (net : Option String) (ok : Bool) :
    (cs.entry = some txt →
      fetchMasterCsv cs net ok = (Except.ok (FetchSource.cache, txt), cs, false)) ∧
    (cs.entry = none →
      (fetchMasterCsv cs (some txt) true).2.1.entry = some txt ∧
      ∀ (net2 : Option String) (ok2 : Bool),
        fetchMasterCsv (fetchMasterCsv cs (some txt) true).2.1 net2 ok2 =
          (Except.ok (FetchSource.cache, txt),
           (fetchMasterCsv cs (some txt) true).2.1, false)) := by
  constructor
  · intro h
    simp [fetchMasterCsv, h]
  · intro h
    simp [fetchMasterCsv, h]

/-- Witness for C7 at a concrete cache state. -/
theorem c7_witness :
    fetchMasterCsv ⟨some "a,b"⟩ none false =
      (Except.ok (FetchSource.cache, "a,b"), ⟨some "a,b"⟩, false) :=
  (c7_cache_authoritative ⟨some "a,b"⟩ "a,b" none false).1 rfl

/-- C9: a store error during an exact-key variant attempt is treated as no
result from that variant: the remaining variants are still tried and the
substring fallback still runs, so the overall lookup never aborts. -/
theorem c9_exact_error_recovered (st : Store) (err : String → Bool) (value : String) :
    (doLookup st err value).1 =
      match ([value, jsToUpper value, jsToLower value].findSome?
          (fun t => if err t then none else lookupByCode st t)) with
      | some r => LookupResult.found r
      | none =>
        match lookupByArticle st value with
        | r :: _ => LookupResult.found r
        | [] => LookupResult.notFound := by
  unfold doLookup
  rw [exactAttempts_eq_findSome]
  cases hf : ([value, jsToUpper value, jsToLower value].findSome?
      (fun t => if err t then none else lookupByCode st t)) with
  | some r => simp
  | none =>
    cases hs : lookupByArticle st value with
    | nil => simp
    | cons r l => simp

/-- C1: for a non-empty trimmed input, the lookup tries the three exact-key
case variants in the order verbatim, upper-cased, lower-cased and returns
the first hit; with no exact hit it falls back to the article-substring
scan on the original trimmed input and returns the first match in scan
order; with an empty scan it resolves to not-found. -/
theorem c1_lookup_protocol (st : Store) (value : String)
    (hne : value ≠ "") (htrim : jsTrim value = value) :
    (doLookup st (fun _ => false) value).1 =
      match lookupByCode st value with
      | some r => LookupResult.found r
      | none =>
        match lookupByCode st (jsToUpper value) with
        | some r => LookupResult.found r
        | none =>
          match lookupByCode st (jsToLower value) with
          | some r => LookupResult.found r
          | none =>
            match lookupByArticle st value with
            | r :: _ => LookupResult.found r
            | [] => LookupResult.notFound := by
  unfold doLookup
  rw [exactAttempts_eq_findSome]
  simp only [List.findSome?_cons, List.findSome?_nil, if_false, Bool.false_eq_true]
  cases h1 : lookupByCode st value with
  | some r => simp
  | none =>
    cases h2 : lookupByCode st (jsToUpper value) with
    | some r => simp
    | none =>
      cases h3 : lookupByCode st (jsToLower value) with
      | some r => simp
      | none =>
        cases h4 : lookupByArticle st value with
        | nil => simp
        | cons r l => simp

/-- Witness for C1: stored code `ab12`, query `AB12` resolves through the
lower-cased variant. -/
theorem c1_witness :
    (doLookup [⟨"ab12", "Blue Widget", "", "", "", "blue widget"⟩]
      (fun _ => false) "AB12").1 =
      LookupResult.found ⟨"ab12", "Blue Widget", "", "", "", "blue widget"⟩ := by
  have h := c1_lookup_protocol [⟨"ab12", "Blue Widget", "", "", "", "blue widget"⟩]
    "AB12" (by decide) (by decide)
  rw [h]
  decide

/-- C4 (amended): a record is returned by the article-substring scan iff it
is stored, its `articleLower` key is non-empty (truthy), and `articleLower`
contains `term.toLowerCase()` as a substring; the scan of a store with no
such record is the empty sequence, never a failure. -/
theorem c4_scan_contract (st : Store) (term : String) :
    (∀ r : StoredRecord, r ∈ lookupByArticle st term ↔
      (r ∈ st ∧ r.article_lower ≠ "" ∧
        jsIncludes r.article_lower (jsToLower term) = true)) ∧
    (lookupByArticle st term = [] ↔
      ∀ r ∈ st, ¬(r.article_lower ≠ "" ∧
        jsIncludes r.article_lower (jsToLower term) = true)) := by
  constructor
  · intro r
    simp [lookupByArticle, List.mem_filter, Bool.and_eq_true, bne_iff_ne, and_assoc]
  · simp [lookupByArticle, List.filter_eq_nil_iff, Bool.and_eq_true, bne_iff_ne]

/-- Counterexample to C4 as stated: a stored record with empty
`articleLower` is not returned for the empty search term even though its
`articleLower` contains the lowercased term as a substring. -/
theorem c4_counterexample :
    ((⟨"A1", "", "", "", "", ""⟩ : StoredRecord) ∈
      ([⟨"A1", "", "", "", "", ""⟩] : Store)) ∧
    jsIncludes (⟨"A1", "", "", "", "", ""⟩ : StoredRecord).article_lower
      (jsToLower "") = true ∧
    (⟨"A1", "", "", "", "", ""⟩ : StoredRecord) ∉
      lookupByArticle [⟨"A1", "", "", "", "", ""⟩] "" := by
  decide

/-- C10: under the store invariant that `articleLower` is the lowercased
article, the article-substring scan never returns a record whose stored
article is empty — the cursor predicate requires a truthy index key, so
empty `articleLower` keys are skipped for every term, including the empty
term. -/
theorem c10_empty_article_skipped (st : Store) (term : String) (r : StoredRecord)
    (hinv : ∀ x ∈ st, x.article_lower = jsToLower x.article)
    (hmem : r ∈ lookupByArticle st term) :
    r.article ≠ "" ∧ r.article_lower ≠ "" := by
  have hfilter := List.mem_filter.mp hmem
  have hne : r.article_lower ≠ "" := by
    have := hfilter.2
    simp only [Bool.and_eq_true, bne_iff_ne, ne_eq] at this
    exact this.1
  refine ⟨?_, hne⟩
  intro hart
  apply hne
  rw [hinv r hfilter.1, hart]
  rfl

/-- Witness for C10 at a concrete store, term and returned record. -/
theorem c10_witness :
    (⟨"ab12", "Blue Widget", "", "", "", "blue widget"⟩ : StoredRecord).article ≠ "" ∧
    (⟨"ab12", "Blue Widget", "", "", "", "blue widget"⟩ : StoredRecord).article_lower ≠ "" :=
  c10_empty_article_skipped [⟨"ab12", "Blue Widget", "", "", "", "blue widget"⟩]
    "Widget" ⟨"ab12", "Blue Widget", "", "", "", "blue widget"⟩
    (by decide) (by decide)

/-! ### Store lemmas: put, bulk import, key uniqueness -/

/-- Replacing the record with a present key makes it the one `find?`
returns for that key. -/
theorem find_map_replace_hit (st : List StoredRecord) (r : StoredRecord)
    (hany : st.any (fun x => x.code == r.code) = true) :
    (st.map (fun x => if x.code == r.code then r else x)).find?
      (fun x => x.code == r.code) = some r := by
  induction st with
  | nil => simp at hany
  | cons x t ih =>
    cases hx : (x.code == r.code) with
    | true =>
      have hxe : x.code = r.code := by simpa using hx
      simp [List.find?_cons, hxe, -List.find?_map]
    | false =>
      have hany' : t.any (fun y => y.code == r.code) = true := by
        simpa [List.any_cons, hx] using hany
      simp only [List.map_cons, List.find?_cons, hx, Bool.false_eq_true, if_false]
      simpa using ih hany'

/-- Replacing records of a different key leaves `find?` for this key
unchanged. -/
theorem find_map_replace_miss (st : List StoredRecord) (r : StoredRecord)
    (c : String) (hc : r.code ≠ c) :
    (st.map (fun x => if x.code == r.code then r else x)).find?
      (fun x => x.code == c) = st.find? (fun x => x.code == c) := by
  induction st with
  | nil => rfl
  | cons x t ih =>
    cases hx : (x.code == r.code) with
    | true =>
      have hxc : (x.code == c) = false := by
        have hxe : x.code = r.code := by simpa using hx
        simp [hxe, hc]
      have hrc : (r.code == c) = false := by simp [hc]
      simp only [List.map_cons, List.find?_cons, hx, if_true, hxc, hrc]
      simpa using ih
    | false =>
      simp only [List.map_cons, List.find?_cons, hx, Bool.false_eq_true, if_false]
      cases hxc : (x.code == c) with
      | true => rfl
      | false => simpa using ih

/-- `put` then `get`: the key written reads back the record written; every
other key is unaffected. -/
theorem lookupByCode_putRecord (st : Store) (r : StoredRecord) (c : String) :
    lookupByCode (putRecord st r) c =
      if r.code = c then some r else lookupByCode st c := by
  unfold putRecord lookupByCode
  by_cases hany : st.any (fun x => x.code == r.code) = true
  · rw [if_pos hany]
    by_cases hc : r.code = c
    · subst hc
      rw [if_pos rfl]
      exact find_map_replace_hit st r hany
    · rw [if_neg hc]
      exact find_map_replace_miss st r c hc
  · rw [if_neg hany, List.find?_append]
    by_cases hc : r.code = c
    · subst hc
      have hnone : st.find? (fun x => x.code == r.code) = none := by
        rw [List.find?_eq_none]
        intro x hx
        have := (List.any_eq_false (p := fun x => x.code == r.code)).mp
          (by simpa using hany) x hx
        simpa using this
      rw [hnone, if_pos rfl]
      simp [List.find?_cons]
    · have hrc : (r.code == c) = false := by simp [hc]
      rw [if_neg hc]
      cases hf : st.find? (fun x => x.code == c) with
      | some y => simp [hf]
      | none => simp [hf, List.find?_cons, hrc]

/-- Every member of the store after a `put` was already stored or is the
record just written. -/
theorem mem_putRecord {x : StoredRecord} {st : Store} {r : StoredRecord}
    (h : x ∈ putRecord st r) : x ∈ st ∨ x = r := by
  unfold putRecord at h
  by_cases hany : st.any (fun y => y.code == r.code)
  · rw [if_pos hany] at h
    obtain ⟨y, hy, hfy⟩ := List.mem_map.mp h
    by_cases hyc : y.code == r.code
    · right
      rw [if_pos hyc] at hfy
      exact hfy.symm
    · left
      rw [if_neg hyc] at hfy
      exact hfy ▸ hy
  · rw [if_neg hany] at h
    rcases List.mem_append.mp h with h1 | h1
    · exact Or.inl h1
    · exact Or.inr (List.mem_singleton.mp h1)

/-- Every member of the store after a bulk import was already stored or is
the stored form of one of the imported records. -/
theorem mem_importToIndexedDB (rs : List Record) :
    ∀ (st : Store) (x : StoredRecord), x ∈ importToIndexedDB st rs →
      x ∈ st ∨ ∃ r ∈ rs, x = toStored r := by
  induction rs with
  | nil => intro st x hx; exact Or.inl hx
  | cons r rest ih =>
    intro st x hx
    rcases ih (putRecord st (toStored r)) x hx with h1 | ⟨r', hr', hx'⟩
    · rcases mem_putRecord h1 with h2 | h2
      · exact Or.inl h2
      · exact Or.inr ⟨r, List.mem_cons_self r rest, h2⟩
    · exact Or.inr ⟨r', List.mem_cons_of_mem r hr', hx'⟩

/-- Reading a key after a bulk import yields the stored form of the last
imported record with that key, the pre-import answer when none was. -/
theorem lookupByCode_import (rs : List Record) :
    ∀ (st : Store) (c : String),
      lookupByCode (importToIndexedDB st rs) c =
        rs.foldl (fun acc r => if r.code = c then some (toStored r) else acc)
          (lookupByCode st c) := by
  induction rs with
  | nil => intro st c; rfl
  | cons r rest ih =>
    intro st c
    show lookupByCode (importToIndexedDB (putRecord st (toStored r)) rest) c = _
    rw [ih, lookupByCode_putRecord]
    rfl

/-- The last-match fold over all records equals the fold over the records
with the matching key only. -/
theorem foldl_step_filter (c : String) (rs : List Record) :
    ∀ (init : Option StoredRecord),
      rs.foldl (fun acc r => if r.code = c then some (toStored r) else acc) init =
        (rs.filter (fun r => r.code == c)).foldl
          (fun _ r => some (toStored r)) init := by
  induction rs with
  | nil => intro init; rfl
  | cons r rest ih =>
    intro init
    by_cases h : r.code = c
    · simp [List.foldl_cons, List.filter_cons, h, ih]
    · simp [List.foldl_cons, List.filter_cons, h, ih]

/-- Replacing the record stored under `r.code` does not change how many
stored records carry any given key. -/
theorem countP_map_replace (st : List StoredRecord) (r : StoredRecord) (c : String) :
    (st.map (fun x => if x.code == r.code then r else x)).countP
      (fun x => x.code == c) = st.countP (fun x => x.code == c) := by
  induction st with
  | nil => rfl
  | cons x t ih =>
    cases hx : (x.code == r.code) with
    | true =>
      have hxe : x.code = r.code := by simpa using hx
      simp only [List.map_cons, List.countP_cons, if_pos hx]
      rw [ih, hxe]
    | false =>
      simp only [List.map_cons, List.countP_cons, hx, Bool.false_eq_true, if_false]
      rw [ih]

/-- A `put` keeps the store at no more than one record per key. -/
theorem countP_putRecord_le (st : Store) (r : StoredRecord) (c : String)
    (h : st.countP (fun x => x.code == c) ≤ 1) :
    (putRecord st r).countP (fun x => x.code == c) ≤ 1 := by
  unfold putRecord
  by_cases hany : st.any (fun x => x.code == r.code)
  · rw [if_pos hany, countP_map_replace]
    exact h
  · rw [if_neg hany, List.countP_append]
    by_cases hc : r.code = c
    · subst hc
      have h0 : st.countP (fun x => x.code == r.code) = 0 := by
        rw [List.countP_eq_zero]
        intro x hx
        have := (List.any_eq_false (p := fun x => x.code == r.code)).mp
          (by simpa using hany) x hx
        simpa using this
      simp [h0, List.countP_cons]
    · have hrc : (r.code == c) = false := by simp [hc]
      simp [List.countP_cons, hrc]
      omega

/-- A store populated only by bulk imports holds at most one record per
key. -/
theorem keys_unique_import (rs : List Record) :
    ∀ (st : Store), (∀ c, st.countP (fun x => x.code == c) ≤ 1) →
      ∀ c, (importToIndexedDB st rs).countP (fun x => x.code == c) ≤ 1 := by
  induction rs with
  | nil => intro st h c; exact h c
  | cons r rest ih =>
    intro st h c
    exact ih (putRecord st (toStored r))
      (fun c' => countP_putRecord_le st (toStored r) c' (h c')) c

/-- C2: importing a list that contains exactly two records with the same
code and reading that code back yields the stored form of the later of the
two (last-write-wins), and exactly one stored record carries that code. -/
theorem c2_last_write_wins (rs : List Record) (c : String) (r1 r2 : Record)
    (hf : rs.filter (fun r => r.code == c) = [r1, r2]) :
    lookupByCode (importToIndexedDB [] rs) c = some (toStored r2) ∧
    (importToIndexedDB [] rs).countP (fun x => x.code == c) = 1 := by
  have hget : lookupByCode (importToIndexedDB [] rs) c = some (toStored r2) := by
    rw [lookupByCode_import, foldl_step_filter, hf]
    rfl
  refine ⟨hget, ?_⟩
  have hle := keys_unique_import rs [] (by intro c'; simp) c
  have hmem := List.mem_of_find?_eq_some hget
  have hp := List.find?_some hget
  have hpos : 0 < (importToIndexedDB [] rs).countP (fun x => x.code == c) :=
    List.countP_pos_iff.mpr ⟨toStored r2, hmem, hp⟩
  omega

/-- Witness for C2: the specification's own example, two records with code
`X1`; the second wins and is the only record stored for `X1`. -/
theorem c2_witness :
    lookupByCode (importToIndexedDB []
      [⟨"X1", "Foo", "", "", ""⟩, ⟨"X1", "Bar", "", "", ""⟩]) "X1" =
      some (toStored ⟨"X1", "Bar", "", "", ""⟩) ∧
    (importToIndexedDB []
      [⟨"X1", "Foo", "", "", ""⟩, ⟨"X1", "Bar", "", "", ""⟩]).countP
      (fun x => x.code == "X1") = 1 :=
  c2_last_write_wins [⟨"X1", "Foo", "", "", ""⟩, ⟨"X1", "Bar", "", "", ""⟩]
    "X1" ⟨"X1", "Foo", "", "", ""⟩ ⟨"X1", "Bar", "", "", ""⟩ (by decide)

/-! ### Trim idempotence and mapper invariants -/

/-- Dropping a satisfied-predicate run twice is the same as once. -/
theorem dropWhile_self (p : Char → Bool) (l : List Char) :
    (l.dropWhile p).dropWhile p = l.dropWhile p := by
  induction l with
  | nil => rfl
  | cons a t ih =>
    by_cases h : p a
    · simp [List.dropWhile_cons, h, ih]
    · simp [List.dropWhile_cons, h]

/-- `dropWhile` distributes over a final element the predicate rejects. -/
theorem dropWhile_append_last (p : Char → Bool) (a : Char) (h : p a = false) :
    ∀ l : List Char, (l ++ [a]).dropWhile p = l.dropWhile p ++ [a] := by
  intro l
  induction l with
  | nil => simp [List.dropWhile_cons, h]
  | cons b t ih =>
    by_cases hb : p b
    · simp [List.dropWhile_cons, hb, ih]
    · simp [List.dropWhile_cons, hb]

/-- The head surviving a `dropWhile` does not satisfy the predicate. -/
theorem dropWhile_head_false (p : Char → Bool) :
    ∀ (l : List Char) (a : Char) (t : List Char),
      l.dropWhile p = a :: t → p a = false := by
  intro l
  induction l with
  | nil => intro a t h; simp at h
  | cons b l' ih =>
    intro a t h
    by_cases hb : p b
    · rw [List.dropWhile_cons, if_pos hb] at h
      exact ih a t h
    · rw [List.dropWhile_cons, if_neg hb] at h
      cases h
      exact Bool.eq_false_iff.mpr hb

/-- Right-trimming is idempotent. -/
theorem trimRightChars_self (l : List Char) :
    trimRightChars (trimRightChars l) = trimRightChars l := by
  unfold trimRightChars
  rw [List.reverse_reverse, dropWhile_self]

/-- Left-trimming an already fully trimmed list changes nothing. -/
theorem trimLeftChars_trimRight_trimLeft (l : List Char) :
    trimLeftChars (trimRightChars (trimLeftChars l)) =
      trimRightChars (trimLeftChars l) := by
  cases hm : trimLeftChars l with
  | nil => rfl
  | cons a t =>
    have ha : Char.isWhitespace a = false :=
      dropWhile_head_false Char.isWhitespace l a t hm
    show trimLeftChars (trimRightChars (a :: t)) = trimRightChars (a :: t)
    unfold trimRightChars
    rw [List.reverse_cons, dropWhile_append_last Char.isWhitespace a ha,
      List.reverse_append]
    simp only [List.reverse_singleton, List.singleton_append]
    unfold trimLeftChars
    rw [List.dropWhile_cons, if_neg (by simp [ha])]

/-- JavaScript `trim` is idempotent. -/
theorem jsTrim_jsTrim (s : String) : jsTrim (jsTrim s) = jsTrim s := by
  show (⟨trimRightChars (trimLeftChars (trimRightChars (trimLeftChars s.data)))⟩ : String) = _
  rw [trimLeftChars_trimRight_trimLeft, trimRightChars_self]
  rfl

/-- Every record produced by the mapper carries an already trimmed,
non-empty code: rows whose trimmed code cell is empty are dropped. -/
theorem csvToRecords_code (text : String) (r : Record)
    (h : r ∈ csvToRecords text) : jsTrim r.code = r.code ∧ r.code ≠ "" := by
  unfold csvToRecords at h
  cases hp : parseCSV text with
  | nil => rw [hp] at h; simp at h
  | cons header rest =>
    rw [hp] at h
    obtain ⟨row, _, hf⟩ := List.mem_filterMap.mp h
    by_cases he : row.isEmpty
    · simp [he] at hf
    · simp only [he, Bool.false_eq_true, if_false] at hf
      by_cases hc : jsTrim (getCol row (headerMap header).code) = ""
      · simp [hc] at hf
      · simp only [hc, if_false] at hf
        have hre := Option.some.inj hf
        rw [← hre]
        exact ⟨jsTrim_jsTrim _, hc⟩

/-- C8: every record reaching the store has a non-empty code after
trimming (rows with an empty trimmed code never reach the store), and
every stored record's `article_lower` equals the lowercased article
computed at upsert time — an invariant preserved by every import. -/
theorem c8_store_invariants (text : String) (st : Store)
    (hst : ∀ x ∈ st, jsTrim x.code ≠ "" ∧ x.article_lower = jsToLower x.article) :
    ∀ x ∈ importToIndexedDB st (csvToRecords text),
      jsTrim x.code ≠ "" ∧ x.article_lower = jsToLower x.article := by
  intro x hx
  rcases mem_importToIndexedDB (csvToRecords text) st x hx with hmem | ⟨r, hr, hxr⟩
  · exact hst x hmem
  · subst hxr
    obtain ⟨hidem, hne⟩ := csvToRecords_code text r hr
    refine ⟨?_, rfl⟩
    show jsTrim r.code ≠ ""
    rw [hidem]
    exact hne

/-- Witness for C8 after importing a two-column dataset into an empty
store. -/
theorem c8_witness :
    jsTrim (toStored ⟨"A1", "Widget", "", "", ""⟩).code ≠ "" ∧
    (toStored ⟨"A1", "Widget", "", "", ""⟩).article_lower =
      jsToLower (toStored ⟨"A1", "Widget", "", "", ""⟩).article :=
  c8_store_invariants "code,article\nA1, Widget " [] (by simp)
    (toStored ⟨"A1", "Widget", "", "", ""⟩) (by decide)

/-! ### Header mapping -/

/-- The department column index after one header cell: set to this cell's
index when the cell matches the department keywords, kept otherwise; the
other keyword tests never touch it. -/
theorem headerStep_department (m : HeaderMap) (i : Nat) (h : String) :
    (headerStep m i h).department =
      if jsIncludes h "department" || jsIncludes h "bagian" then some i
      else m.department := by
  simp only [headerStep]
  by_cases h5 : (jsIncludes h "department" || jsIncludes h "bagian") = true
  · simp [h5]
  · simp [h5, apply_ite (fun mm : HeaderMap => mm.department)]

/-- Walking the header keeps, or sets, the department column: it ends
mapped whenever it was already mapped or some remaining cell matches the
department keywords. -/
theorem applyHeader_department_isSome :
    ∀ (l : List String) (m : HeaderMap) (i : Nat),
      ((∃ h ∈ l, (jsIncludes h "department" || jsIncludes h "bagian") = true) ∨
        m.department.isSome = true) →
      (applyHeader m i l).department.isSome = true := by
  intro l
  induction l with
  | nil =>
    intro m i hyp
    rcases hyp with ⟨h, hh, _⟩ | hm
    · simp at hh
    · exact hm
  | cons g rest ih =>
    intro m i hyp
    show (applyHeader (headerStep m i g) (i + 1) rest).department.isSome = true
    rcases hyp with ⟨h, hh, hcond⟩ | hm
    · rcases List.mem_cons.mp hh with rfl | hmem
      · apply ih
        right
        rw [headerStep_department, if_pos hcond]
        rfl
      · exact ih _ _ (Or.inl ⟨h, hmem, hcond⟩)
    · apply ih
      right
      rw [headerStep_department]
      split
      · rfl
      · exact hm

/-- C5 (amended): a header cell whose trimmed lowercased form contains the
substring `department` or the localized synonym `bagian` maps the
department column; containing only `dept` does not. -/
theorem c5_department_mapping (hs : List String) (h : String) (hmem : h ∈ hs)
    (hcond : (jsIncludes (jsToLower (jsTrim h)) "department" ||
      jsIncludes (jsToLower (jsTrim h)) "bagian") = true) :
    (headerMap hs).department.isSome = true := by
  unfold headerMap
  apply applyHeader_department_isSome
  left
  exact ⟨jsToLower (jsTrim h),
    List.mem_map_of_mem (fun x => jsToLower (jsTrim x)) hmem, hcond⟩

/-- Counterexample to C5 as stated: the header cell `Dept` contains the
substring `dept` after normalization, yet the department column stays
unmapped — the mapped record's department is empty, not `Toys`. -/
theorem c5_counterexample :
    jsIncludes (jsToLower (jsTrim "Dept")) "dept" = true ∧
    csvToRecords "Code,Dept\nA1,Toys" =
      [{ code := "A1", article := "", description := "", price := "",
         department := "" }] := by
  decide

/-- Witness for C5 (amended) on a concrete header row. -/
theorem c5_witness : (headerMap ["Code", "Department"]).department.isSome = true :=
  c5_department_mapping ["Code", "Department"] "Department" (by decide) (by decide)

/-! ### Single-flight engine protocol -/

/-- Every return path of `doLookup` performs exactly the transition pair
busy-on, busy-off: `lookupBusy = true` at entry, one `finishLookup` at
exit, for found, fallback-found and not-found outcomes alike. -/
theorem doLookup_events (st : Store) (err : String → Bool) (v : String) :
    (doLookup st err v).2 = [EngineEv.enterInFlight, EngineEv.backToIdle] := by
  simp only [doLookup]
  cases exactAttempts st err [v, jsToUpper v, jsToLower v] none with
  | some r => rfl
  | none =>
    cases lookupByArticle st v with
    | nil => rfl
    | cons r l => rfl

/-- C6: a lookup issued while one is in flight is rejected immediately
without entering the in-flight state; every lookup that runs ends with the
busy flag cleared, performing exactly one enter and one exit transition —
the in-flight state never leaks across calls. -/
theorem c6_single_flight (busy : Bool) (st : Store) (err : String → Bool)
    (raw : String) :
    (busy = true →
      handleEnter busy st err raw = (LookupOutcome.rejectedBusy, true, [])) ∧
    (busy = false → (handleEnter busy st err raw).2.1 = false) ∧
    (busy = false → jsTrim raw ≠ "" →
      (handleEnter busy st err raw).2.2 =
        [EngineEv.enterInFlight, EngineEv.backToIdle] ∧
      (handleEnter busy st err raw).2.2.count EngineEv.backToIdle = 1) := by
  refine ⟨?_, ?_, ?_⟩
  · intro hb
    subst hb
    rfl
  · intro hb
    subst hb
    by_cases he : jsTrim raw = ""
    · simp [handleEnter, he]
    · simp [handleEnter, he, doLookup_events, applyEvents]
  · intro hb he
    subst hb
    refine ⟨by simp [handleEnter, he, doLookup_events], ?_⟩
    simp [handleEnter, he, doLookup_events]
    decide

/-- Witness for C6: an idle engine, a non-empty query. -/
theorem c6_witness :
    (handleEnter false [] (fun _ => false) "zzz").2.2 =
      [EngineEv.enterInFlight, EngineEv.backToIdle] ∧
    (handleEnter false [] (fun _ => false) "zzz").2.2.count EngineEv.backToIdle = 1 :=
  (c6_single_flight false [] (fun _ => false) "zzz").2.2 rfl (by decide)

/-! ### CSV quoted-field round trip -/

/-- Inside quotes, any character other than `"` — including commas and
line terminators — is appended to the field buffer verbatim. -/
theorem parseCSVAux_inQuotes_other (a : Char) (ha : a ≠ '"') (rest : List Char)
    (cur : List Char) (row : List (List Char)) (rows : List (List (List Char))) :
    parseCSVAux true (a :: rest) cur row rows =
      parseCSVAux true rest (cur ++ [a]) row rows := by
  rw [parseCSVAux.eq_def]
  split
  all_goals simp_all

/-- Quote-doubling of the empty value. -/
theorem escQ_nil : escQ [] = [] := rfl

/-- Quote-doubling emits two quotes for a leading quote. -/
theorem escQ_cons_quote (t : List Char) :
    escQ ('"' :: t) = '"' :: '"' :: escQ t := by
  simp [escQ]

/-- Quote-doubling copies any other leading character. -/
theorem escQ_cons_other (a : Char) (ha : a ≠ '"') (t : List Char) :
    escQ (a :: t) = a :: escQ t := by
  simp [escQ, ha]

/-- Scanning a quote-doubled value followed by the closing quote, from
inside quotes, accumulates exactly the original value onto the field
buffer and ends at the end-of-input flush. -/
theorem parseCSVAux_quoted (s : List Char) :
    ∀ (cur : List Char) (row : List (List Char)) (rows : List (List (List Char))),
      parseCSVAux true (escQ s ++ ['"']) cur row rows =
        emitRow (cur ++ s) row rows := by
  induction s with
  | nil =>
    intro cur row rows
    rw [escQ_nil, List.nil_append, List.append_nil]
    rfl
  | cons a t ih =>
    intro cur row rows
    by_cases ha : a = '"'
    · subst ha
      rw [escQ_cons_quote]
      show parseCSVAux true (escQ t ++ ['"']) (cur ++ ['"']) row rows = _
      rw [ih]
      congr 1
      simp
    · rw [escQ_cons_other a ha, List.cons_append,
        parseCSVAux_inQuotes_other a ha, ih]
      congr 1
      simp

/-- C3 (amended): every non-empty field value — including values with
commas, double quotes and line breaks — encoded as a single quoted CSV
field parses back to one row with that single field; the empty value is
the lone exception, its encoding `""` being suppressed as a blank row. -/
theorem c3_quoted_roundtrip (s : String) (hs : s ≠ "") :
    parseCSV (encodeField s) = [[s]] := by
  obtain ⟨l⟩ := s
  have hl : l ≠ [] := by
    intro h
    subst h
    exact hs (by decide)
  have hdata : ("\"" ++ String.mk (escQ l) ++ "\"").data =
      '"' :: (escQ l ++ ['"']) := by
    simp [String.data_append]
  unfold parseCSV encodeField
  rw [show (String.mk l).data = l from rfl, hdata]
  show (parseCSVAux true (escQ l ++ ['"']) [] [] []).map
    (fun row => row.map String.mk) = [[⟨l⟩]]
  rw [parseCSVAux_quoted]
  simp [emitRow, hl]

/-- Counterexample to C3 as stated for every field value: the empty field
value encodes to a pair of quotes whose parse is the empty row list, not a
single row with a single empty field. -/
theorem c3_counterexample : parseCSV (encodeField "") ≠ [[""]] := by
  decide

/-- Witness for C3 (amended) on a value containing a comma, a quote and a
line break. -/
theorem c3_witness : parseCSV (encodeField "a,\"b\nc") = [["a,\"b\nc"]] :=
  c3_quoted_roundtrip "a,\"b\nc" (by decide)

end SearchEmway
